import Mathlib

/-!
Verification of the lab4d loss utilities and deformable-field methods.

The numeric tensors of the source are embedded as lists of real numbers
(per-point batches collapse the leading shape into one list axis; reshapes
such as view(-1,3) are the identity in this model).  External collaborators
(the warp module, trimesh, the base field class) are abstract parameters.
-/

/- ---------------- generic list-arithmetic helpers ---------------- -/

theorem list_sum_map_neg (l : List ℝ) (f : ℝ → ℝ) :
    (l.map (fun x => -(f x))).sum = -((l.map f).sum) := by
  induction l with
  | nil => simp
  | cons a t ih => simp [ih]; ring

theorem list_sum_map_const (l : List ℝ) (c : ℝ) :
    (l.map (fun _ => c)).sum = l.length * c := by
  induction l with
  | nil => simp
  | cons a t ih => simp [ih]; ring

theorem list_sum_map_mul_right (l : List ℝ) (f : ℝ → ℝ) (c : ℝ) :
    (l.map (fun x => f x * c)).sum = (l.map f).sum * c := by
  induction l with
  | nil => simp
  | cons a t ih => simp [ih]; ring

theorem list_sum_map_id (l : List ℝ) : (l.map (fun x => x)).sum = l.sum := by
  simp

theorem list_sum_map_two_add (l : List ℝ) (f g : ℝ → ℝ) :
    (l.map (fun x => f x + g x)).sum = (l.map f).sum + (l.map g).sum := by
  induction l with
  | nil => simp
  | cons a t ih => simp [ih]; ring

theorem list_sum_const_of_mem (l : List ℝ) (c : ℝ) (h : ∀ x ∈ l, x = c) :
    l.sum = l.length * c := by
  induction l with
  | nil => simp
  | cons a t ih =>
    have ha : a = c := h a (List.mem_cons_self a t)
    have ht : ∀ x ∈ t, x = c := fun x hx => h x (List.mem_cons_of_mem a hx)
    simp [ha, ih ht]; ring

/- ---------------- embedding of src/lab4d/utils/loss_utils.py ---------------- -/

/-- Embeds entropy_loss: entropy = -(prob * (prob + 1e-9).log()).sum(dim),
with the reduced axis modelled as the list axis. -/
noncomputable def entropy_loss (prob : List ℝ) : ℝ :=
  -((prob.map (fun p => p * Real.log (p + 1e-9))).sum)

/-- One-hot list of length n with the single 1 at index i (used both as the
scatter-built target of cross_entropy_skin_loss and as a test input). -/
def oneHotL : ℕ → ℕ → List ℝ
  | 0, _ => []
  | n + 1, 0 => 1 :: List.replicate n 0
  | n + 1, i + 1 => 0 :: oneHotL n i

/-- Uniform distribution over B categories. -/
noncomputable def uniformDist (B : ℕ) : List ℝ := List.replicate B ((B : ℝ))⁻¹

/-- Embeds torch max over the last axis with keepdim: value and index of the
maximal entry (first maximal index on ties). -/
noncomputable def maxWithIdx : List ℝ → ℝ × ℕ
  | [] => (0, 0)
  | [x] => (x, 0)
  | x :: y :: t =>
    let r := maxWithIdx (y :: t)
    if r.1 > x then (r.1, r.2 + 1) else (x, 0)

/-- Log-sum-exp of a list of scores, the normalizer of log_softmax. -/
noncomputable def logSumExp (xs : List ℝ) : ℝ :=
  Real.log ((xs.map Real.exp).sum)

/-- Embeds cross_entropy_skin_loss for one row: the target is the one-hot
vector scattered at the arg-max of the scores, and F.cross_entropy with a
class-probability target t is -(sum of t_i * log_softmax(x)_i). -/
noncomputable def cross_entropy_skin_loss (skin : List ℝ) : ℝ :=
  let full_skin := skin
  let indices := (maxWithIdx skin).2
  let target := oneHotL skin.length indices
  let ce := (List.zipWith (fun t x => t * (x - logSumExp full_skin)) target skin).sum
  Neg.neg ce

/-- Dot product of two equally-shaped tensors, (v1 * v2).sum(). -/
def dotL (v1 v2 : List ℝ) : ℝ := (List.zipWith (fun a b => a * b) v1 v2).sum

/-- Embeds align_vectors: scale_fac = (v1*v2).sum() / (v1*v1).sum(),
replaced by 1.0 when negative. -/
noncomputable def align_vectors (v1 v2 : List ℝ) : ℝ :=
  let scale_fac := dotL v1 v2 / dotL v1 v1
  if scale_fac < 0 then 1 else scale_fac

/- helpers about dotL -/

theorem dotL_self_eq_sum_sq (v : List ℝ) :
    dotL v v = (v.map (fun x => x * x)).sum := by
  induction v with
  | nil => rfl
  | cons a t ih =>
    simp only [dotL, List.zipWith_cons_cons, List.sum_cons, List.map_cons] at ih ⊢
    rw [ih]

theorem dotL_self_pos (v : List ℝ) (hv : ∃ x ∈ v, x ≠ 0) : 0 < dotL v v := by
  rw [dotL_self_eq_sum_sq]
  induction v with
  | nil => rcases hv with ⟨x, hx, _⟩; cases hx
  | cons a t ih =>
    rcases hv with ⟨x, hx, hxne⟩
    rcases List.mem_cons.mp hx with h | h
    · have ha : 0 < a * a := by rw [← h]; exact mul_self_pos.mpr hxne
      have ht : 0 ≤ (t.map (fun x => x * x)).sum := by
        apply List.sum_nonneg
        intro y hy
        rcases List.mem_map.mp hy with ⟨z, _, rfl⟩
        exact mul_self_nonneg z
      simp only [List.map_cons, List.sum_cons]
      linarith
    · have ht : 0 < (t.map (fun x => x * x)).sum := ih ⟨x, h, hxne⟩
      have ha : 0 ≤ a * a := mul_self_nonneg a
      simp only [List.map_cons, List.sum_cons]
      linarith

theorem dotL_neg_right (v : List ℝ) :
    dotL v (v.map (fun x => -x)) = -(dotL v v) := by
  induction v with
  | nil => simp [dotL]
  | cons a t ih =>
    simp only [dotL, List.map_cons, List.zipWith_cons_cons, List.sum_cons] at ih ⊢
    rw [ih]
    ring

/-- C3: align_vectors returns the least-squares scale s = dot(v1,v2)/dot(v1,v1)
when that quotient is non-negative and 1.0 when it is negative; in particular
align_vectors v v = 1 and align_vectors v (-v) = 1 for every nonzero v. -/
theorem align_vectors_spec (v1 v2 : List ℝ) (hv : ∃ x ∈ v1, x ≠ 0) :
    (0 ≤ dotL v1 v2 / dotL v1 v1 → align_vectors v1 v2 = dotL v1 v2 / dotL v1 v1) ∧
    (dotL v1 v2 / dotL v1 v1 < 0 → align_vectors v1 v2 = 1) ∧
    align_vectors v1 v1 = 1 ∧
    align_vectors v1 (v1.map (fun x => -x)) = 1 := by
  have hpos : 0 < dotL v1 v1 := dotL_self_pos v1 hv
  refine ⟨?_, ?_, ?_, ?_⟩
  · intro h
    simp only [align_vectors]
    rw [if_neg (not_lt.mpr h)]
  · intro h
    simp only [align_vectors]
    rw [if_pos h]
  · simp only [align_vectors]
    rw [div_self (ne_of_gt hpos)]
    norm_num
  · simp only [align_vectors, dotL_neg_right]
    rw [neg_div, div_self (ne_of_gt hpos)]
    norm_num

/-- Witness for align_vectors_spec at the concrete nonzero vector [1]. -/
theorem align_vectors_spec_witness :
    align_vectors [(1 : ℝ)] [(1 : ℝ)] = 1 :=
  (align_vectors_spec [(1 : ℝ)] [(1 : ℝ)] ⟨1, by simp, by norm_num⟩).2.2.1

/- ---------------- gauss_skin_consistency_loss weighting (deformable.py) ---------------- -/

/-- Mean of a tensor, tensor.mean(). -/
noncomputable def meanL (l : List ℝ) : ℝ := l.sum / l.length

/-- Embeds weight_pos of gauss_skin_consistency_loss:
weight_pos = 0.5 / (1e-6 + density.mean()). -/
noncomputable def weight_pos (density : List ℝ) : ℝ := 0.5 / (1e-6 + meanL density)

/-- Embeds weight_neg of gauss_skin_consistency_loss:
weight_neg = 0.5 / (1e-6 + 1 - density).mean(), the mean taken of the
elementwise expression exactly as in the source. -/
noncomputable def weight_neg (density : List ℝ) : ℝ :=
  0.5 / meanL (density.map (fun d => 1e-6 + 1 - d))

theorem meanL_const (l : List ℝ) (c : ℝ) (hne : l ≠ []) (h : ∀ x ∈ l, x = c) :
    meanL l = c := by
  have hlen : (l.length : ℝ) ≠ 0 := by
    have : l.length ≠ 0 := fun h0 => hne (List.length_eq_zero.mp h0)
    exact_mod_cast this
  rw [meanL, list_sum_const_of_mem l c h, mul_comm, mul_div_assoc, div_self hlen, mul_one]

/-- C1: the per-point BCE weights of gauss_skin_consistency_loss satisfy
weight_pos = 0.5 / (1e-6 + mean(density)) and
weight_neg = 0.5 / (1e-6 + mean(1 - density)) (the 1e-6 guard against
division by zero), and for a batch of uniform density 0.5 the two weights
are equal, balancing the positive- and negative-class contributions. -/
theorem gauss_skin_consistency_weights (density : List ℝ) (hne : density ≠ []) :
    weight_pos density = 0.5 / (1e-6 + meanL density) ∧
    weight_neg density = 0.5 / (1e-6 + meanL (density.map (fun d => 1 - d))) ∧
    ((∀ d ∈ density, d = 0.5) → weight_pos density = weight_neg density) := by
  have hlen : (density.length : ℝ) ≠ 0 := by
    have : density.length ≠ 0 := fun h0 => hne (List.length_eq_zero.mp h0)
    exact_mod_cast this
  refine ⟨rfl, ?_, ?_⟩
  · have hfun : (fun d : ℝ => 1e-6 + 1 - d) = (fun d : ℝ => (1e-6 : ℝ) + (1 - d)) := by
      funext d; ring
    have hsum : (density.map (fun d => 1e-6 + 1 - d)).sum
        = density.length * (1e-6 : ℝ) + (density.map (fun d => 1 - d)).sum := by
      rw [hfun, list_sum_map_two_add density (fun _ => (1e-6 : ℝ)) (fun d => 1 - d),
        list_sum_map_const]
    have : meanL (density.map (fun d => 1e-6 + 1 - d))
        = 1e-6 + meanL (density.map (fun d => 1 - d)) := by
      rw [meanL, hsum, List.length_map, add_div, mul_comm, mul_div_assoc,
        div_self hlen, mul_one, meanL, List.length_map]
    rw [weight_neg, this]
  · intro hall
    have h1 : meanL density = 0.5 := meanL_const density 0.5 hne hall
    have h2 : meanL (density.map (fun d => 1e-6 + 1 - d)) = 1e-6 + 1 - 0.5 := by
      apply meanL_const
      · intro h0
        exact hne (List.map_eq_nil_iff.mp h0)
      · intro x hx
        rcases List.mem_map.mp hx with ⟨d, hd, rfl⟩
        rw [hall d hd]
    rw [weight_pos, weight_neg, h1, h2]
    norm_num

/-- Witness for gauss_skin_consistency_weights on the singleton batch [0.5]. -/
theorem gauss_skin_consistency_weights_witness :
    weight_pos [(0.5 : ℝ)] = weight_neg [(0.5 : ℝ)] :=
  (gauss_skin_consistency_weights [(0.5 : ℝ)] (by simp)).2.2
    (by intro d hd; simpa using hd)

/- ---------------- entropy_loss theorems ---------------- -/

theorem oneHotL_map_sum (f : ℝ → ℝ) (hf0 : f 0 = 0) :
    ∀ n i, i < n → ((oneHotL n i).map f).sum = f 1 := by
  intro n
  induction n with
  | zero => intro i hi; cases hi
  | succ m ih =>
    intro i hi
    cases i with
    | zero =>
      simp only [oneHotL, List.map_cons, List.sum_cons, List.map_replicate,
        List.sum_replicate, hf0, smul_zero, add_zero]
    | succ j =>
      have hj : j < m := Nat.lt_of_succ_lt_succ hi
      simp only [oneHotL, List.map_cons, List.sum_cons, hf0, ih j hj, zero_add]

theorem log_one_add_abs_le (x : ℝ) (hx : 0 ≤ x) :
    |Real.log (1 + x)| ≤ x := by
  have h1 : (0 : ℝ) < 1 + x := by linarith
  have hnn : 0 ≤ Real.log (1 + x) := Real.log_nonneg (by linarith)
  rw [abs_of_nonneg hnn]
  have := Real.log_le_sub_one_of_pos h1
  linarith

/-- C8: entropy_loss computes -(sum of p * log(p + 1e-9)); on the uniform
distribution over B categories it is within B*1e-9 of log B; on a one-hot
distribution it is within 1e-9 of 0; and log of the number of categories is
an upper bound over all normalized non-negative distributions (so the
uniform value is the maximum up to the 1e-9 perturbation). -/
theorem entropy_loss_spec (B i : ℕ) (hB : 1 ≤ B) (hi : i < B) :
    (∀ p : List ℝ, entropy_loss p = -((p.map (fun q => q * Real.log (q + 1e-9))).sum)) ∧
    |entropy_loss (uniformDist B) - Real.log B| ≤ B * 1e-9 ∧
    |entropy_loss (oneHotL B i)| ≤ 1e-9 ∧
    (∀ p : List ℝ, (∀ x ∈ p, 0 ≤ x) → p.sum = 1 →
      entropy_loss p ≤ Real.log p.length) := by
  have hBR : (0 : ℝ) < B := by exact_mod_cast hB
  have hBne : (B : ℝ) ≠ 0 := ne_of_gt hBR
  refine ⟨fun p => rfl, ?_, ?_, ?_⟩
  · -- uniform distribution
    have huval : entropy_loss (uniformDist B)
        = -(Real.log (((B : ℝ))⁻¹ + 1e-9)) := by
      simp only [entropy_loss, uniformDist, List.map_replicate, List.sum_replicate,
        nsmul_eq_mul]
      rw [← mul_assoc, mul_inv_cancel₀ hBne, one_mul]
    have hprod : (((B : ℝ))⁻¹ + 1e-9) * B = 1 + 1e-9 * B := by
      field_simp
    have hy : (0 : ℝ) < ((B : ℝ))⁻¹ + 1e-9 := by positivity
    have hlog : Real.log (((B : ℝ))⁻¹ + 1e-9) + Real.log B
        = Real.log (1 + 1e-9 * B) := by
      rw [← Real.log_mul (ne_of_gt hy) hBne, hprod]
    have : entropy_loss (uniformDist B) - Real.log B = -(Real.log (1 + 1e-9 * B)) := by
      rw [huval, ← hlog]; ring
    rw [this, abs_neg]
    have hb : |Real.log (1 + 1e-9 * B)| ≤ 1e-9 * B :=
      log_one_add_abs_le (1e-9 * B) (by positivity)
    calc |Real.log (1 + 1e-9 * B)| ≤ 1e-9 * B := hb
      _ = B * 1e-9 := by ring
  · -- one-hot distribution
    have hval : ((oneHotL B i).map (fun q => q * Real.log (q + 1e-9))).sum
        = 1 * Real.log (1 + 1e-9) :=
      oneHotL_map_sum (fun q => q * Real.log (q + 1e-9)) (by ring) B i hi
    have : entropy_loss (oneHotL B i) = -(Real.log (1 + 1e-9)) := by
      rw [entropy_loss, hval, one_mul]
    rw [this, abs_neg]
    exact log_one_add_abs_le 1e-9 (by norm_num)
  · -- log of the category count is an upper bound
    intro p hnn hsum
    have hpne : p ≠ [] := by
      intro h0
      rw [h0] at hsum
      simp at hsum
    have hn0 : p.length ≠ 0 := fun h0 => hpne (List.length_eq_zero.mp h0)
    have hnR : (0 : ℝ) < p.length := by
      have : 0 < p.length := Nat.pos_of_ne_zero hn0
      exact_mod_cast this
    set n : ℝ := (p.length : ℝ) with hn
    have hstep : ∀ x ∈ p, -(x * Real.log (x + 1e-9)) ≤ n⁻¹ + x * (Real.log n - 1) := by
      intro x hx
      have hx0 : 0 ≤ x := hnn x hx
      rcases eq_or_lt_of_le hx0 with h0 | hxpos
      · rw [← h0]
        have : (0 : ℝ) ≤ n⁻¹ := by positivity
        simpa using this
      · have hxne : x ≠ 0 := ne_of_gt hxpos
        have h1 : Real.log x ≤ Real.log (x + 1e-9) :=
          Real.log_le_log hxpos (by linarith)
        have h2 : Real.log (n⁻¹ * x⁻¹) ≤ n⁻¹ * x⁻¹ - 1 :=
          Real.log_le_sub_one_of_pos (by positivity)
        have h3 : Real.log (n⁻¹ * x⁻¹) = -(Real.log n) + -(Real.log x) := by
          rw [Real.log_mul (by positivity) (inv_ne_zero hxne), Real.log_inv, Real.log_inv]
        have h4 : -(Real.log x) ≤ n⁻¹ * x⁻¹ - 1 + Real.log n := by linarith
        have h5 : x * (-(Real.log x)) ≤ x * (n⁻¹ * x⁻¹ - 1 + Real.log n) :=
          mul_le_mul_of_nonneg_left h4 hx0
        have h6 : x * (n⁻¹ * x⁻¹ - 1 + Real.log n)
            = n⁻¹ + x * (Real.log n - 1) := by
          field_simp
          ring
        have h7 : -(x * Real.log (x + 1e-9)) ≤ -(x * Real.log x) := by
          have := mul_le_mul_of_nonneg_left h1 hx0
          linarith
        calc -(x * Real.log (x + 1e-9)) ≤ -(x * Real.log x) := h7
          _ = x * (-(Real.log x)) := by ring
          _ ≤ x * (n⁻¹ * x⁻¹ - 1 + Real.log n) := h5
          _ = n⁻¹ + x * (Real.log n - 1) := h6
    have hsum_le : (p.map (fun x => -(x * Real.log (x + 1e-9)))).sum
        ≤ (p.map (fun x => n⁻¹ + x * (Real.log n - 1))).sum :=
      List.sum_le_sum hstep
    have hleft : (p.map (fun x => -(x * Real.log (x + 1e-9)))).sum = entropy_loss p := by
      rw [list_sum_map_neg p (fun x => x * Real.log (x + 1e-9)), entropy_loss]
    have hright : (p.map (fun x => n⁻¹ + x * (Real.log n - 1))).sum = Real.log n := by
      rw [list_sum_map_two_add p (fun _ => n⁻¹) (fun x => x * (Real.log n - 1)),
        list_sum_map_const, list_sum_map_mul_right p (fun x => x) (Real.log n - 1),
        list_sum_map_id, hsum]
      rw [← hn]
      field_simp
    rw [hleft, hright] at hsum_le
    exact hsum_le

/-- Witness for entropy_loss_spec at B = 2 categories, one-hot index 0. -/
theorem entropy_loss_spec_witness :
    |entropy_loss (uniformDist 2) - Real.log 2| ≤ 2 * 1e-9 :=
  by exact_mod_cast (entropy_loss_spec 2 0 (by norm_num) (by norm_num)).2.1

/- ---------------- cross_entropy_skin_loss theorems ---------------- -/

theorem oneHotL_length (n i : ℕ) : (oneHotL n i).length = n := by
  induction n generalizing i with
  | zero => simp [oneHotL]
  | succ m ih =>
    cases i with
    | zero => simp [oneHotL]
    | succ j => simp [oneHotL, ih j]

theorem maxWithIdx_cons (x : ℝ) (l : List ℝ) (hl : l ≠ []) :
    maxWithIdx (x :: l)
      = if (maxWithIdx l).1 > x then ((maxWithIdx l).1, (maxWithIdx l).2 + 1)
        else (x, 0) := by
  cases l with
  | nil => exact absurd rfl hl
  | cons y t => rfl

theorem maxWithIdx_replicate_zero (n : ℕ) :
    maxWithIdx (List.replicate n (0 : ℝ)) = (0, 0) := by
  induction n with
  | zero => rfl
  | succ m ih =>
    cases m with
    | zero => rfl
    | succ k =>
      rw [List.replicate_succ,
        maxWithIdx_cons 0 (List.replicate (k + 1) 0) (by simp), ih]
      norm_num

theorem maxWithIdx_oneHotL (n i : ℕ) (hi : i < n) :
    maxWithIdx (oneHotL n i) = (1, i) := by
  induction n generalizing i with
  | zero => cases hi
  | succ m ih =>
    cases i with
    | zero =>
      cases m with
      | zero => rfl
      | succ k =>
        show maxWithIdx (1 :: List.replicate (k + 1) 0) = (1, 0)
        rw [maxWithIdx_cons 1 (List.replicate (k + 1) 0) (by simp),
          maxWithIdx_replicate_zero]
        norm_num
    | succ j =>
      have hj : j < m := Nat.lt_of_succ_lt_succ hi
      have hne : oneHotL m j ≠ [] := by
        intro h0
        have hlen := oneHotL_length m j
        rw [h0] at hlen
        simp at hlen
        omega
      show maxWithIdx (0 :: oneHotL m j) = (1, j + 1)
      rw [maxWithIdx_cons 0 (oneHotL m j) hne, ih j hj]
      norm_num

theorem oneHotL_exp_sum (n i : ℕ) (hi : i < n) :
    ((oneHotL n i).map Real.exp).sum = Real.exp 1 + ((n : ℝ) - 1) := by
  induction n generalizing i with
  | zero => cases hi
  | succ m ih =>
    cases i with
    | zero =>
      simp only [oneHotL, List.map_cons, List.sum_cons, List.map_replicate,
        Real.exp_zero, List.sum_replicate, nsmul_eq_mul, mul_one]
      push_cast
      ring
    | succ j =>
      have hj : j < m := Nat.lt_of_succ_lt_succ hi
      simp only [oneHotL, List.map_cons, List.sum_cons, Real.exp_zero, ih j hj]
      push_cast
      ring

theorem oneHot_zip_replicate_sum (n : ℕ) (L : ℝ) :
    (List.zipWith (fun t x => t * (x - L)) (List.replicate n (0 : ℝ))
      (List.replicate n 0)).sum = 0 := by
  induction n with
  | zero => rfl
  | succ m ih =>
    rw [List.replicate_succ]
    simp only [List.zipWith_cons_cons, List.sum_cons, ih]
    ring

theorem oneHot_zip_sum (n i : ℕ) (L : ℝ) (hi : i < n) :
    (List.zipWith (fun t x => t * (x - L)) (oneHotL n i) (oneHotL n i)).sum
      = 1 - L := by
  induction n generalizing i with
  | zero => cases hi
  | succ m ih =>
    cases i with
    | zero =>
      simp only [oneHotL, List.zipWith_cons_cons, List.sum_cons,
        oneHot_zip_replicate_sum]
      ring
    | succ j =>
      have hj : j < m := Nat.lt_of_succ_lt_succ hi
      simp only [oneHotL, List.zipWith_cons_cons, List.sum_cons, ih j hj]
      ring

theorem cross_entropy_skin_loss_oneHot_val (n i : ℕ) (hi : i < n) :
    cross_entropy_skin_loss (oneHotL n i)
      = Real.log (Real.exp 1 + ((n : ℝ) - 1)) - 1 := by
  have hlen : (oneHotL n i).length = n := oneHotL_length n i
  have hmax : maxWithIdx (oneHotL n i) = (1, i) := maxWithIdx_oneHotL n i hi
  have hL : logSumExp (oneHotL n i) = Real.log (Real.exp 1 + ((n : ℝ) - 1)) := by
    rw [logSumExp, oneHotL_exp_sum n i hi]
  show Neg.neg ((List.zipWith
      (fun t x => t * (x - logSumExp (oneHotL n i)))
      (oneHotL (oneHotL n i).length (maxWithIdx (oneHotL n i)).2)
      (oneHotL n i)).sum)
    = Real.log (Real.exp 1 + ((n : ℝ) - 1)) - 1
  rw [hlen, hmax]
  rw [oneHot_zip_sum n i (logSumExp (oneHotL n i)) hi, hL]
  ring

theorem quarter_lt_log_exp_one_add_one :
    (1 : ℝ) / 4 < Real.log (Real.exp 1 + 1) - 1 := by
  have hq : Real.exp ((1 : ℝ) / 4) ≤ 4 / 3 := by
    have hinv : (3 / 4 : ℝ) ≤ (Real.exp ((1 : ℝ) / 4))⁻¹ := by
      have h := Real.add_one_le_exp (-((1 : ℝ) / 4))
      rw [Real.exp_neg] at h
      linarith
    have hpos := Real.exp_pos ((1 : ℝ) / 4)
    have h2 : Real.exp ((1 : ℝ) / 4) * (3 / 4 : ℝ) ≤ 1 := by
      calc Real.exp ((1 : ℝ) / 4) * (3 / 4 : ℝ)
          ≤ Real.exp ((1 : ℝ) / 4) * (Real.exp ((1 : ℝ) / 4))⁻¹ :=
            mul_le_mul_of_nonneg_left hinv (le_of_lt hpos)
        _ = 1 := mul_inv_cancel₀ (ne_of_gt hpos)
    linarith
  have hsplit : Real.exp ((5 : ℝ) / 4) = Real.exp 1 * Real.exp ((1 : ℝ) / 4) := by
    rw [← Real.exp_add]
    norm_num
  have hmul : Real.exp 1 * Real.exp ((1 : ℝ) / 4) ≤ Real.exp 1 * (4 / 3) :=
    mul_le_mul_of_nonneg_left hq (le_of_lt (Real.exp_pos 1))
  have hfin : Real.exp 1 * (4 / 3 : ℝ) < Real.exp 1 + 1 := by
    nlinarith [Real.exp_one_lt_d9]
  have hlt : Real.exp ((5 : ℝ) / 4) < Real.exp 1 + 1 := by
    rw [hsplit]
    linarith
  have hlog : (5 : ℝ) / 4 < Real.log (Real.exp 1 + 1) :=
    (Real.lt_log_iff_exp_lt (by positivity)).mpr hlt
  linarith

/-- C2 counterexample: on the already-one-hot row [1, 0] the function
cross_entropy_skin_loss returns log(e + 1) - 1, which exceeds 1/4
(about 0.313), so it is not approximately 0. -/
theorem cross_entropy_skin_loss_one_hot_counterexample :
    cross_entropy_skin_loss [(1 : ℝ), 0] = Real.log (Real.exp 1 + 1) - 1 ∧
    (1 : ℝ) / 4 < cross_entropy_skin_loss [(1 : ℝ), 0] := by
  have hlist : oneHotL 2 0 = [(1 : ℝ), 0] := rfl
  have hval := cross_entropy_skin_loss_oneHot_val 2 0 (by norm_num)
  rw [hlist] at hval
  norm_num at hval
  refine ⟨hval, ?_⟩
  rw [hval]
  exact quarter_lt_log_exp_one_add_one

/-- C2 (amended): on an already-one-hot row over B categories,
cross_entropy_skin_loss returns log(e + (B-1)) - 1: this is 0 for B = 1
but at least log(e + 1) - 1 > 1/4 for every B at least 2, i.e. softmax of
the raw one-hot scores keeps the row loss bounded away from 0. -/
theorem cross_entropy_skin_loss_one_hot (B i : ℕ) (hi : i < B) :
    cross_entropy_skin_loss (oneHotL B i)
      = Real.log (Real.exp 1 + ((B : ℝ) - 1)) - 1 ∧
    (2 ≤ B → (1 : ℝ) / 4 < cross_entropy_skin_loss (oneHotL B i)) := by
  refine ⟨cross_entropy_skin_loss_oneHot_val B i hi, ?_⟩
  intro hB
  rw [cross_entropy_skin_loss_oneHot_val B i hi]
  have hBR : (2 : ℝ) ≤ (B : ℝ) := by exact_mod_cast hB
  have hmono : Real.log (Real.exp 1 + 1) ≤ Real.log (Real.exp 1 + ((B : ℝ) - 1)) := by
    apply Real.log_le_log (by positivity)
    linarith
  have := quarter_lt_log_exp_one_add_one
  linarith

/-- Witness for cross_entropy_skin_loss_one_hot at B = 2, index 0. -/
theorem cross_entropy_skin_loss_one_hot_witness :
    (1 : ℝ) / 4 < cross_entropy_skin_loss (oneHotL 2 0) :=
  (cross_entropy_skin_loss_one_hot 2 0 (by norm_num)).2 (by norm_num)

/- ---------------- embedding of src/lab4d/nnutils/deformable.py ---------------- -/

/-- Points in 3D space (one row of an (N,3) tensor). -/
abbrev Pt3 := ℝ × ℝ × ℝ

/-- Euclidean norm of a 3D point. -/
noncomputable def norm3 (p : Pt3) : ℝ :=
  Real.sqrt (p.1 ^ 2 + p.2.1 ^ 2 + p.2.2 ^ 2)

/-- Per-sample L2 distance, (a - b).norm(2, -1). -/
noncomputable def dist3 (p q : Pt3) : ℝ :=
  Real.sqrt ((p.1 - q.1) ^ 2 + (p.2.1 - q.2.1) ^ 2 + (p.2.2 - q.2.2) ^ 2)

/-- Python dict with string keys, modelled extensionally as a partial map. -/
abbrev Dict (V : Type) := String → Option V

def emptyDict {V : Type} : Dict V := fun _ => none

/-- Dict item assignment d[k] = v. -/
def dictSet {V : Type} (d : Dict V) (k : String) (v : V) : Dict V :=
  fun q => if q = k then some v else d q

/-- Dict.update(u): entries of u override entries of d. -/
def dictUpdate {V : Type} (d u : Dict V) : Dict V :=
  fun q =>
    match u q with
    | some v => some v
    | none => d q

/-- Embeds sdf_fn_torch_sphere of get_init_sdf_fn: per point the squared
coordinates are summed over the last axis and sdf = sqrt(dis) - radius with
the fixed radius 0.1 (negative inside, positive outside). -/
noncomputable def sdf_fn_torch_sphere (pts : List Pt3) : List ℝ :=
  let radius : ℝ := 0.1
  pts.map (fun p => Real.sqrt (p.1 ^ 2 + p.2.1 ^ 2 + p.2.2 ^ 2) - radius)

/-- The three callables get_init_sdf_fn can build. -/
inductive InitSdfFn where
  | meshBased
  | sphereAnalytic
  | skelGauss
deriving DecidableEq

/-- Embeds the selection logic of get_init_sdf_fn: the motion-type test
("skel-" in self.fg_motion) is commented out in the source, so the choice
depends only on the mode argument. -/
def get_init_sdf_fn (fg_motion : String) (mode : String) : InitSdfFn :=
  if mode = "sphere" then InitSdfFn.sphereAnalytic else InitSdfFn.meshBased

/-- External trimesh-like mesh operations used by init_proxy (trimesh and
trimesh.transformations are collaborators outside this repository). -/
structure MeshOps (Mesh Mat : Type) where
  load : String → Mesh
  euler_matrix : ℝ → ℝ → ℝ → Mat
  apply_transform : Mesh → Mat → Mesh
  scale_vertices : Mesh → ℝ → Mesh
  uv_sphere : ℝ → ℕ × ℕ → Mesh

/-- Embeds init_proxy: both arguments are overwritten by a fixed literal
path and the fixed scale 0.1 before any use; the result is the pair
(init_geometry, proxy_geometry). -/
noncomputable def init_proxy {Mesh Mat : Type} (ops : MeshOps Mesh Mat)
    (geom_path : String) (init_scale : ℝ) : Mesh × Mesh :=
  let geom_path := "/pfs/mt-1oY5F7/liuguangce/program-vidu/4dcode-8.3/objs for lab4d-neus/monster/tmpbrv8we0o.obj"
  let init_scale : ℝ := 0.1
  let mesh := ops.load geom_path
  let rotation_matrix := ops.euler_matrix (-Real.pi) 0 0
  let mesh := ops.apply_transform mesh rotation_matrix
  let mesh := ops.scale_vertices mesh init_scale
  (mesh, ops.uv_sphere 0.12 (4, 4))

/-- Values stored in a field-output dict: point tensors or scalar tensors. -/
inductive Val (P : Type) where
  | pts (l : List P)
  | reals (l : List ℝ)

/-- Python runtime faults the embedded methods can raise. -/
inductive PyError where
  | nameError
  | keyError
deriving DecidableEq

/-- Articulation cache entries of samples_dict: a pair of per-frame pose
tensors, each a list over the batch axis M. -/
abbrev SamplesDict (A : Type) := Dict (List A × List A)

/-- Abstract interface of the warp module (lab4d.nnutils.warping is a
collaborator outside this repository): only the operations used by the
embedded Deformable methods. -/
structure WarpModel (P A : Type) where
  isSkinning : Bool
  forwardAux : List P → Option (List ℕ) → Option (List ℕ) → SamplesDict A →
    List P × Dict (List ℝ)
  getGaussDensity : List P → List A × List A → List ℝ
  logibeta : ℝ

/-- Modelled from the spec: the decorator train_only_fields
(lab4d.utils.decorator, not under src) makes the wrapped method active only
during training and a no-op pass-through otherwise; the no-op is modelled
as returning the empty output mapping. -/
def train_only_fields {V : Type} (training : Bool) (body : Unit → Dict V) :
    Dict V :=
  if training then body () else emptyDict

/-- Embeds Deformable.cycle_loss: during training, re-invokes the warp
forward with return_aux=True on the canonical points, stores the per-sample
L2 distance to the time-t points under "cyc_dist" in the dict inherited
from the base field, then merges the warp aux dict. -/
noncomputable def cycle_loss {A : Type} (training : Bool) (w : WarpModel Pt3 A)
    (base_cyc : Dict (List ℝ)) (xyz xyz_t : List Pt3)
    (frame_id inst_id : Option (List ℕ)) (samples_dict : SamplesDict A) :
    Dict (List ℝ) :=
  train_only_fields training (fun _ =>
    let res := w.forwardAux xyz frame_id inst_id samples_dict
    let cyc_dist := List.zipWith dist3 res.1 xyz_t
    dictUpdate (dictSet base_cyc ("cyc_dist") cyc_dist) res.2)

/-- Embeds Deformable.compute_gauss_density: for a SkinningWarp the local
rest_articulation is bound only inside the key-presence guard, so the later
use raises NameError when the key is absent.  The view(-1,3) flattening and
the final reshape are the identity in the list model. -/
noncomputable def compute_gauss_density {P A : Type} (w : WarpModel P A)
    (xyz : List P) (samples_dict : SamplesDict A) :
    Except PyError (Dict (Val P)) :=
  if w.isSkinning then
    match samples_dict ("rest_articulation") with
    | some ra =>
      let rest_articulation := (ra.1.take 1, ra.2.take 1)
      let gauss_density := w.getGaussDensity xyz rest_articulation
      let scaled := gauss_density.map (fun g => g * Real.exp w.logibeta)
      Except.ok (dictSet emptyDict ("gauss_density") (Val.reals scaled))
    | none => Except.error PyError.nameError
  else Except.ok emptyDict

/-- Embeds Deformable.query_field: runs the base query (given abstractly as
its three outputs) and, when opts["two_branch"] is false, computes the
Gaussian-bone density at the canonical positions feat_dict["xyz"] of the
base query and merges it into feat_dict. -/
noncomputable def query_field {P A D AD : Type} (w : WarpModel P A)
    (two_branch : Bool) (base_feat : Dict (Val P)) (deltas : D) (aux_dict : AD)
    (samples_dict : SamplesDict A) : Except PyError (Dict (Val P) × D × AD) :=
  if two_branch then Except.ok (base_feat, deltas, aux_dict)
  else
    match base_feat ("xyz") with
    | some (Val.pts xyz) =>
      match compute_gauss_density w xyz samples_dict with
      | Except.ok gauss_field =>
        Except.ok (dictUpdate base_feat gauss_field, deltas, aux_dict)
      | Except.error e => Except.error e
    | _ => Except.error PyError.keyError

/- ---------------- theorems on the deformable embedding ---------------- -/

/-- C4: for every mode argument and every motion type, get_init_sdf_fn
selects the analytic sphere SDF exactly when mode = "sphere" and the
mesh-based SDF otherwise; the skeleton-Gaussian SDF (motion-type string
matching) is never selected. -/
theorem get_init_sdf_fn_selection (fg_motion mode : String) :
    (get_init_sdf_fn fg_motion mode = InitSdfFn.sphereAnalytic ↔ mode = "sphere") ∧
    (mode ≠ "sphere" → get_init_sdf_fn fg_motion mode = InitSdfFn.meshBased) ∧
    get_init_sdf_fn fg_motion mode ≠ InitSdfFn.skelGauss := by
  unfold get_init_sdf_fn
  by_cases h : mode = "sphere" <;> simp [h]

/-- Witness for get_init_sdf_fn_selection on the motion type "skel-human". -/
theorem get_init_sdf_fn_selection_witness :
    get_init_sdf_fn ("skel-human") ("sphere") = InitSdfFn.sphereAnalytic ∧
    get_init_sdf_fn ("skel-human") ("mesh") = InitSdfFn.meshBased :=
  ⟨(get_init_sdf_fn_selection ("skel-human") ("sphere")).1.mpr rfl,
    (get_init_sdf_fn_selection ("skel-human") ("mesh")).2.1 (by decide)⟩

/-- C7: the state produced by init_proxy does not depend on its geom_path
and init_scale arguments: any two calls on the same object agree, because
both arguments are shadowed by the hard-coded path and the scale 0.1
before use. -/
theorem init_proxy_ignores_args {Mesh Mat : Type} (ops : MeshOps Mesh Mat)
    (p1 : String) (s1 : ℝ) (p2 : String) (s2 : ℝ) :
    init_proxy ops p1 s1 = init_proxy ops p2 s2 := rfl

/-- C9: the analytic sphere SDF maps every point to its Euclidean norm
minus the fixed radius 0.1; at the origin it returns -0.1, and at any point
at distance r > 0.1 from the origin it returns r - 0.1. -/
theorem sphere_sdf_spec (p : Pt3) (r : ℝ) (hr : 0.1 < r) (hnorm : norm3 p = r) :
    (∀ q : Pt3, sdf_fn_torch_sphere [q] = [norm3 q - 0.1]) ∧
    sdf_fn_torch_sphere [((0 : ℝ), (0 : ℝ), (0 : ℝ))] = [-(0.1 : ℝ)] ∧
    sdf_fn_torch_sphere [p] = [r - 0.1] := by
  refine ⟨?_, ?_, ?_⟩
  · intro q
    simp [sdf_fn_torch_sphere, norm3]
  · simp only [sdf_fn_torch_sphere, List.map_cons, List.map_nil]
    norm_num
  · simp only [sdf_fn_torch_sphere, List.map_cons, List.map_nil]
    rw [show Real.sqrt (p.1 ^ 2 + p.2.1 ^ 2 + p.2.2 ^ 2) = norm3 p from rfl, hnorm]

/-- Witness for sphere_sdf_spec at the point (1,0,0) at distance 1. -/
theorem sphere_sdf_spec_witness :
    sdf_fn_torch_sphere [((1 : ℝ), (0 : ℝ), (0 : ℝ))] = [(1 : ℝ) - 0.1] :=
  (sphere_sdf_spec ((1 : ℝ), (0 : ℝ), (0 : ℝ)) 1 (by norm_num)
    (by norm_num [norm3, Real.sqrt_one])).2.2

/-- C6: during training, cycle_loss stores under "cyc_dist" the per-sample
Euclidean distance between the forward-warped canonical points and the
time-t points, keeps the base field's inherited entries under their own
keys, and outside training it returns the empty output mapping. -/
theorem cycle_loss_spec {A : Type} (training : Bool) (w : WarpModel Pt3 A)
    (base_cyc : Dict (List ℝ)) (xyz xyz_t : List Pt3)
    (frame_id inst_id : Option (List ℕ)) (samples_dict : SamplesDict A)
    (haux : (w.forwardAux xyz frame_id inst_id samples_dict).2 ("cyc_dist") = none) :
    (training = true →
      cycle_loss training w base_cyc xyz xyz_t frame_id inst_id samples_dict ("cyc_dist")
        = some (List.zipWith dist3
            (w.forwardAux xyz frame_id inst_id samples_dict).1 xyz_t) ∧
      ∀ k, k ≠ "cyc_dist" →
        (w.forwardAux xyz frame_id inst_id samples_dict).2 k = none →
        cycle_loss training w base_cyc xyz xyz_t frame_id inst_id samples_dict k
          = base_cyc k) ∧
    (training = false →
      cycle_loss training w base_cyc xyz xyz_t frame_id inst_id samples_dict
        = emptyDict) := by
  constructor
  · intro htrain
    subst htrain
    constructor
    · simp only [cycle_loss, train_only_fields, if_true]
      simp [dictUpdate, dictSet, haux]
    · intro k hk hkaux
      simp only [cycle_loss, train_only_fields, if_true]
      simp [dictUpdate, dictSet, hkaux, if_neg hk]
  · intro htrain
    subst htrain
    simp only [cycle_loss, train_only_fields, Bool.false_eq_true, if_false]

/-- C5: for a skeleton warp and a non-dual-branch model, query_field merges
into the base output, under the key "gauss_density", the Gaussian-bone
density (scaled by exp(logibeta) of the warp) evaluated at the canonical
positions feat_dict["xyz"] produced by the base query, using the rest
articulation restricted to its first pose ([:1] of both tensors, broadcast
downstream). -/
theorem query_field_gauss_density_merge {P A D AD : Type} (w : WarpModel P A)
    (base_feat : Dict (Val P)) (deltas : D) (aux_dict : AD)
    (samples_dict : SamplesDict A) (xyz : List P) (ra : List A × List A)
    (hskin : w.isSkinning = true)
    (hra : samples_dict ("rest_articulation") = some ra)
    (hxyz : base_feat ("xyz") = some (Val.pts xyz)) :
    query_field w false base_feat deltas aux_dict samples_dict =
      Except.ok (dictUpdate base_feat (dictSet emptyDict ("gauss_density")
        (Val.reals ((w.getGaussDensity xyz (ra.1.take 1, ra.2.take 1)).map
          (fun g => g * Real.exp w.logibeta)))), deltas, aux_dict) ∧
    (dictUpdate base_feat (dictSet emptyDict ("gauss_density")
        (Val.reals ((w.getGaussDensity xyz (ra.1.take 1, ra.2.take 1)).map
          (fun g => g * Real.exp w.logibeta))))) ("gauss_density")
      = some (Val.reals ((w.getGaussDensity xyz (ra.1.take 1, ra.2.take 1)).map
          (fun g => g * Real.exp w.logibeta))) := by
  constructor
  · simp only [query_field, Bool.false_eq_true, if_false, hxyz]
    simp only [compute_gauss_density, hskin, if_true, hra]
  · simp [dictUpdate, dictSet]

/-- C10: with a skeleton warp, compute_gauss_density succeeds under the
precondition that samples_dict contains "rest_articulation"; when the key
is missing the unbound local rest_articulation raises NameError, and under
the precondition that fault branch is unreachable. -/
theorem compute_gauss_density_guard {P A : Type} (w : WarpModel P A)
    (xyz : List P) (samples_dict : SamplesDict A)
    (hskin : w.isSkinning = true) :
    ((samples_dict ("rest_articulation")).isSome = true →
      ∃ d, compute_gauss_density w xyz samples_dict = Except.ok d) ∧
    (samples_dict ("rest_articulation") = none →
      compute_gauss_density w xyz samples_dict
        = Except.error PyError.nameError) := by
  constructor
  · intro hsome
    rcases Option.isSome_iff_exists.mp hsome with ⟨ra, hra⟩
    refine ⟨dictSet emptyDict ("gauss_density") (Val.reals
      ((w.getGaussDensity xyz (ra.1.take 1, ra.2.take 1)).map
        (fun g => g * Real.exp w.logibeta))), ?_⟩
    simp only [compute_gauss_density, hskin, if_true, hra]
  · intro hnone
    simp only [compute_gauss_density, hskin, if_true, hnone]

/- concrete instantiations used by the witnesses -/

/-- Minimal concrete skeleton warp over trivial point and pose types. -/
noncomputable def wUnit : WarpModel Unit Unit :=
  { isSkinning := true
    forwardAux := fun _ _ _ _ => ([], emptyDict)
    getGaussDensity := fun _ _ => []
    logibeta := 0 }

/-- Minimal concrete skeleton warp over 3D points. -/
noncomputable def wPt3 : WarpModel Pt3 Unit :=
  { isSkinning := true
    forwardAux := fun _ _ _ _ => ([], emptyDict)
    getGaussDensity := fun _ _ => []
    logibeta := 0 }

/-- Base feature dict holding only the key "xyz". -/
def baseFeatUnit : Dict (Val Unit) := dictSet emptyDict ("xyz") (Val.pts [])

/-- Samples dict holding only the key "rest_articulation". -/
def samplesUnit : SamplesDict Unit :=
  dictSet emptyDict ("rest_articulation") ([], [])

/-- Witness for cycle_loss_spec: training on the empty batch with the
trivial warp. -/
theorem cycle_loss_spec_witness :
    cycle_loss true wPt3 emptyDict [] [] none none emptyDict ("cyc_dist")
      = some (List.zipWith dist3 [] []) :=
  ((cycle_loss_spec true wPt3 emptyDict [] [] none none emptyDict rfl).1 rfl).1

/-- Witness for query_field_gauss_density_merge on the trivial model. -/
theorem query_field_gauss_density_merge_witness :
    (dictUpdate baseFeatUnit (dictSet emptyDict ("gauss_density")
        (Val.reals ((wUnit.getGaussDensity []
          (([] : List Unit).take 1, ([] : List Unit).take 1)).map
          (fun g => g * Real.exp wUnit.logibeta))))) ("gauss_density")
      = some (Val.reals ((wUnit.getGaussDensity []
          (([] : List Unit).take 1, ([] : List Unit).take 1)).map
          (fun g => g * Real.exp wUnit.logibeta))) :=
  (query_field_gauss_density_merge wUnit baseFeatUnit () () samplesUnit []
    ([], []) rfl (by simp [samplesUnit, dictSet]) (by simp [baseFeatUnit, dictSet])).2

/-- Witness for compute_gauss_density_guard: the skeleton warp faults on an
empty samples dict. -/
theorem compute_gauss_density_guard_witness :
    compute_gauss_density wUnit ([] : List Unit) emptyDict
      = Except.error PyError.nameError :=
  (compute_gauss_density_guard wUnit [] emptyDict rfl).2 rfl
